import Mathlib

/-!
# Verification of the `datalayer` schema/validation engine

This file is a shallow embedding, in Lean 4, of the core of the
`datalayer` repository (`src/datalayer/specs.py`, `src/datalayer/utils.py`,
`src/datalayer/exceptions.py`), together with theorems settling the
claims of the natural-language specification against the code.

Modelling conventions:
* Python values are the inductive `PyVal`; Python type objects appearing
  in schemas are `PyCls`.
* Exceptions are modelled with `Except`: validation errors carry the
  full colon-joined message string built by `exceptions.py`.
* Python mappings are association lists with unique keys (a hypothesis
  where a theorem needs it); `dict.__setitem__` on an existing key keeps
  the entry's position, which `pSet` mirrors.
* `Model.validate` mutates its input (`value[field] = ...`) and returns
  the same object; `validateSt` therefore returns a pair
  `(outcome, final state of the input value)`, threading the in-place
  writes of the source through all nesting levels.
* `str` is a Python `Sequence`; `str(generator)` does not consume the
  generator and returns its `repr`, whose memory address is
  run-dependent.  It is modelled by the fixed placeholder `genRepr`;
  every property proved about it holds for any address.
-/

namespace Datalayer

/-- Python type objects that can appear in schemas or as classes of
values: the built-in concrete types plus the `Spec` classes themselves
(`specs.Spec`, `specs.Atom`, `specs.Model`, `specs.Seq`, `specs.Map`). -/
inductive PyCls where
  | intC
  | boolC
  | strC
  | listC
  | tupleC
  | dictC
  | noneTypeC
  | specC
  | atomC
  | modelC
  | seqC
  | mapC
  deriving DecidableEq, Repr

/-- Model of `issubclass(c, Spec)` for a type object `c`. -/
def isSpecCls : PyCls → Bool
  | .specC | .atomC | .modelC | .seqC | .mapC => true
  | _ => false

/-- The name `c.__name__`. -/
def clsName : PyCls → String
  | .intC => "int"
  | .boolC => "bool"
  | .strC => "str"
  | .listC => "list"
  | .tupleC => "tuple"
  | .dictC => "dict"
  | .noneTypeC => "NoneType"
  | .specC => "Spec"
  | .atomC => "Atom"
  | .modelC => "Model"
  | .seqC => "Seq"
  | .mapC => "Map"

/-- A validated `Spec` node (`specs.Spec` subclasses, after
`validate_spec` has normalised the raw description):
`Atom` stores a type object, `Model` stores the ordered field mapping
(field name to child node), `Seq` stores the element node, and `Map`
stores its `MapSpec` namedtuple of key node and value node. -/
inductive SpecNode where
  | atom (t : PyCls)
  | model (fields : List (String × SpecNode))
  | seq (elem : SpecNode)
  | mapS (key val : SpecNode)

/-- Python `typename(node)` for a node instance: its class name. -/
def nodeName : SpecNode → String
  | .atom _ => "Atom"
  | .model _ => "Model"
  | .seq _ => "Seq"
  | .mapS _ _ => "Map"

/-- Python runtime values flowing through `validate` (and raw schema
descriptions flowing into `Atom`): built-in scalars and containers,
type objects, and `Spec` instances. -/
inductive PyVal where
  | vInt (n : Int)
  | vBool (b : Bool)
  | vStr (s : String)
  | vNone
  | vList (items : List PyVal)
  | vTuple (items : List PyVal)
  | vDict (pairs : List (PyVal × PyVal))
  | vType (c : PyCls)
  | vSpecInst (node : SpecNode)

/-- Is the value a type object (`issubclass(type(v), type)`)? -/
def isVType : PyVal → Bool
  | .vType _ => true
  | _ => false

/-- Is the value a `Spec` instance (`isinstance(v, Spec)`)? -/
def isVSpecInst : PyVal → Bool
  | .vSpecInst _ => true
  | _ => false

/-- Model of `utils.typename(x)` for a runtime value: `x.__name__` when `x` has
one (type objects), else `type(x).__name__`.  The metaclass of the
`Spec` classes is `abc.ABCMeta`. -/
def valTypeName : PyVal → String
  | .vInt _ => "int"
  | .vBool _ => "bool"
  | .vStr _ => "str"
  | .vNone => "NoneType"
  | .vList _ => "list"
  | .vTuple _ => "tuple"
  | .vDict _ => "dict"
  | .vType c => clsName c
  | .vSpecInst n => nodeName n

/-- The `base_type` attribute of a node: the wrapped type for `Atom`,
`collections.abc.Mapping` for `Model` and `Map`,
`collections.abc.Sequence` for `Seq`. -/
inductive BaseTy where
  | cls (c : PyCls)
  | mappingABC
  | sequenceABC
  deriving DecidableEq, Repr

/-- The `node.base_type` attribute. -/
def baseTy : SpecNode → BaseTy
  | .atom t => .cls t
  | .model _ => .mappingABC
  | .seq _ => .sequenceABC
  | .mapS _ _ => .mappingABC

/-- The name `typename(base_type)`. -/
def baseTyName : BaseTy → String
  | .cls c => clsName c
  | .mappingABC => "Mapping"
  | .sequenceABC => "Sequence"

/-- Model of `isinstance(node, cls)` for a `Spec` instance against the `Spec`
classes. -/
def specInstOf (n : SpecNode) : PyCls → Bool
  | .specC => true
  | .atomC => match n with | .atom _ => true | _ => false
  | .modelC => match n with | .model _ => true | _ => false
  | .seqC => match n with | .seq _ => true | _ => false
  | .mapC => match n with | .mapS _ _ => true | _ => false
  | _ => false

/-- Model of `isinstance(v, b)`.  Python `bool` is a subclass of `int`; `str`, `list`
and `tuple` are registered `Sequence`s; `dict` is the registered
`Mapping`. -/
def isinst (v : PyVal) : BaseTy → Bool
  | .cls c =>
    match v, c with
    | .vInt _, .intC => true
    | .vBool _, .intC => true
    | .vBool _, .boolC => true
    | .vStr _, .strC => true
    | .vList _, .listC => true
    | .vTuple _, .tupleC => true
    | .vDict _, .dictC => true
    | .vNone, .noneTypeC => true
    | .vSpecInst n, c => specInstOf n c
    | _, _ => false
  | .mappingABC =>
    match v with
    | .vDict _ => true
    | _ => false
  | .sequenceABC =>
    match v with
    | .vList _ | .vTuple _ | .vStr _ => true
    | _ => false

/-- Model of `exceptions.Error.join`: colon-join the non-empty message parts. -/
def joinParts (parts : List String) : String :=
  ": ".intercalate (parts.filter (fun p => p ≠ ""))

/-- The `ValidationError(node, *parts)` message. -/
def vErrMsg (node : SpecNode) (parts : List String) : String :=
  joinParts (("invalid value for " ++ nodeName node) :: parts)

/-- The `ValidationError.wrong_type` message raised by `Spec.validate`. -/
def wrongTypeMsg (node : SpecNode) (v : PyVal) : String :=
  vErrMsg node ["wrong type",
    "expected '" ++ baseTyName (baseTy node) ++ "', got '" ++ valTypeName v ++ "'"]

/-- The `Model.validate` "too many items" error: note the source passes
the two f-strings as ONE part (adjacent string literals concatenate,
there is no separator between "items" and "expected"). -/
def tooManyMsg (expected got : Nat) : String :=
  vErrMsg (.model []) ["too many items" ++ "expected " ++ toString expected
    ++ ", got " ++ toString got]

/-- The `Model.validate` "too few items" error (two separate parts). -/
def tooFewMsg (expected got : Nat) : String :=
  vErrMsg (.model []) ["too few items",
    "expected " ++ toString expected ++ ", got " ++ toString got]

/-- The `Model.validate` "field not found" error. -/
def fieldNotFoundMsg (field : String) : String :=
  vErrMsg (.model []) ["field '" ++ field ++ "' not found"]

mutual

/-- Structural equality on Python values, used to model `==` on dict
keys during lookup (Model field names are strings, where `==` is plain
string equality). -/
def pyBEq : PyVal → PyVal → Bool
  | .vInt a, .vInt b => a == b
  | .vBool a, .vBool b => a == b
  | .vStr a, .vStr b => a == b
  | .vNone, .vNone => true
  | .vList a, .vList b => pyListBEq a b
  | .vTuple a, .vTuple b => pyListBEq a b
  | .vDict a, .vDict b => pyPairsBEq a b
  | .vType a, .vType b => a == b
  | .vSpecInst a, .vSpecInst b => nodeBEq a b
  | _, _ => false

/-- Elementwise equality of value lists. -/
def pyListBEq : List PyVal → List PyVal → Bool
  | [], [] => true
  | x :: xs, y :: ys => pyBEq x y && pyListBEq xs ys
  | _, _ => false

/-- Pairwise equality of dict entry lists. -/
def pyPairsBEq : List (PyVal × PyVal) → List (PyVal × PyVal) → Bool
  | [], [] => true
  | p :: ps, q :: qs => pyBEq p.1 q.1 && pyBEq p.2 q.2 && pyPairsBEq ps qs
  | _, _ => false

/-- Structural equality of nodes (used only through `pyBEq`). -/
def nodeBEq : SpecNode → SpecNode → Bool
  | .atom a, .atom b => a == b
  | .model a, .model b => fieldsBEq a b
  | .seq a, .seq b => nodeBEq a b
  | .mapS ka va, .mapS kb vb => nodeBEq ka kb && nodeBEq va vb
  | _, _ => false

/-- Pairwise equality of field lists. -/
def fieldsBEq : List (String × SpecNode) → List (String × SpecNode) → Bool
  | [], [] => true
  | p :: ps, q :: qs => p.1 == q.1 && nodeBEq p.2 q.2 && fieldsBEq ps qs
  | _, _ => false

end

/-- Lookup `value[field]` on a Python dict, modelled as first-match lookup in
the association list. -/
def pLookup : List (PyVal × PyVal) → PyVal → Option PyVal
  | [], _ => none
  | p :: ps, k => if pyBEq p.1 k then some p.2 else pLookup ps k

/-- Assignment `value[field] = x` on a Python dict for a key already present:
the entry keeps its position and gets the new value. -/
def pSet : List (PyVal × PyVal) → PyVal → PyVal → List (PyVal × PyVal)
  | [], _, _ => []
  | p :: ps, k, x => (if pyBEq p.1 k then (p.1, x) else p) :: pSet ps k x

/-- The `repr` of the generator expression object built inside
`Seq.validate`; the address is run-dependent, and no theorem below
depends on it. -/
def genRepr : String := "<generator object <genexpr> at 0x000000000000>"

/-- Run an element validator over the elements of a sequence, as the
generator inside `Seq.validate` is consumed by `cls(...)`: outcomes are
collected in order, the first failing element aborts with its error.
The second component is the final state of the input sequence's
elements (elements are validated in place up to the failure point). -/
def seqElems (f : PyVal → Except String PyVal × PyVal) :
    List PyVal → Except String (List PyVal) × List PyVal
  | [] => (.ok [], [])
  | x :: rest =>
    match f x with
    | (.error e, x') => (.error e, x' :: rest)
    | (.ok xr, x') =>
      let (r, rest') := seqElems f rest
      (r.map (fun rs => xr :: rs), x' :: rest')

mutual

/-- Model of `node.validate(value)`, returning the outcome together with the
final state of the input value (the source mutates the input:
`Model.validate` executes `value[field] = field_spec.validate(value[field])`
and returns the very same mapping object).

* `Atom.validate` is `Spec.validate`: the `isinstance` check.
* `Model.validate`: `isinstance` Mapping check, then the two length
  checks, then the per-field loop in schema order.
* `Seq.validate`: `isinstance` Sequence check, then
  `value = cls(self.spec.validate(item) for item in value)` with
  `cls = type(value)`: `list` and `tuple` consume the generator;
  `str(generator)` returns the generator's `repr` without consuming it,
  so no element is validated for a `str` input.
* `Map` does not override `validate`, so it is `Spec.validate`:
  only the `isinstance` Mapping check, the value returned unchanged. -/
def validateSt : SpecNode → PyVal → Except String PyVal × PyVal
  | .atom t, v =>
    if isinst v (.cls t) then (.ok v, v)
    else (.error (wrongTypeMsg (.atom t) v), v)
  | .mapS k w, v =>
    if isinst v .mappingABC then (.ok v, v)
    else (.error (wrongTypeMsg (.mapS k w) v), v)
  | .seq es, v =>
    match v with
    | .vList items =>
      let (r, items') := seqElems (fun x => validateSt es x) items
      (r.map .vList, .vList items')
    | .vTuple items =>
      let (r, items') := seqElems (fun x => validateSt es x) items
      (r.map .vTuple, .vTuple items')
    | .vStr s => (.ok (.vStr genRepr), .vStr s)
    | v => (.error (wrongTypeMsg (.seq es) v), v)
  | .model fs, v =>
    match v with
    | .vDict pairs =>
      if pairs.length > fs.length then
        (.error (tooManyMsg fs.length pairs.length), .vDict pairs)
      else if pairs.length < fs.length then
        (.error (tooFewMsg fs.length pairs.length), .vDict pairs)
      else modelFields fs pairs
    | v => (.error (wrongTypeMsg (.model fs) v), v)

/-- The per-field loop of `Model.validate`: for each declared field in
schema order, look the field up in the current state of the input dict,
validate it, and write the result back in place. -/
def modelFields : List (String × SpecNode) → List (PyVal × PyVal) →
    Except String PyVal × PyVal
  | [], pairs => (.ok (.vDict pairs), .vDict pairs)
  | (fname, fspec) :: rest, pairs =>
    match pLookup pairs (.vStr fname) with
    | none => (.error (fieldNotFoundMsg fname), .vDict pairs)
    | some x =>
      match validateSt fspec x with
      | (.error e, x') => (.error e, .vDict (pSet pairs (.vStr fname) x'))
      | (.ok xr, _) => modelFields rest (pSet pairs (.vStr fname) xr)

end

/-- Model of `node.validate(value)`: just the outcome. -/
def validate (s : SpecNode) (v : PyVal) : Except String PyVal :=
  (validateSt s v).1

/-! ## Traversal: `inner` and `innermost` -/

/-- The kinds of inner objects a node can wrap (`self.spec`): a type
object (Atom), a sub-node (Seq), the field mapping (Model), or the
`MapSpec` namedtuple of key and value nodes (Map). -/
inductive Entity where
  | cls (c : PyCls)
  | node (s : SpecNode)
  | fieldMap (fs : List (String × SpecNode))
  | pair (k v : SpecNode)

/-- Is this entity a concrete type object? -/
def Entity.isCls : Entity → Bool
  | .cls _ => true
  | _ => false

/-- Is this entity itself a `Spec` node? -/
def Entity.isNode : Entity → Bool
  | .node _ => true
  | _ => false

/-- Model of `node.inner()` with no argument: the wrapped inner value. -/
def inner : SpecNode → Entity
  | .atom t => .cls t
  | .model fs => .fieldMap fs
  | .seq e => .node e
  | .mapS k v => .pair k v

/-- Model of `node.innermost()`: repeatedly unwrap `inner()` while the result is
still a `Spec` instance.  Only a Seq's inner value is a node, so only
Seq layers are unwrapped; Atom stops at the wrapped type, Model at the
field mapping, Map at its `MapSpec` pair. -/
def innermost : SpecNode → Entity
  | .atom t => .cls t
  | .model fs => .fieldMap fs
  | .mapS k v => .pair k v
  | .seq e => innermost e

/-- Nodes built from Seq/Atom nesting only. -/
def seqAtomOnly : SpecNode → Bool
  | .atom _ => true
  | .seq e => seqAtomOnly e
  | _ => false

/-! ## Equality (`Spec.__eq__`)

`Spec.__eq__(self, other)` evaluates `self.spec == other.spec` with no
type guard.  Accessing `.spec` on an object that has none raises
`AttributeError` — also via the reflected comparison, when Python
retries `Spec.__eq__` after a built-in `__eq__` returns
`NotImplemented`.  `entityEq` models `==` between inner values; an
`AttributeError` escaping the comparison is the `.error` case. -/

mutual

/-- Python `==` between two inner values.  A node compared with a
non-node raises `AttributeError` (directly or through the reflected
call); two built-in values of different types compare `False`; dicts
and (named)tuples compare structurally, re-entering `Spec.__eq__` for
their node members. -/
def entityEq : Entity → Entity → Except String Bool
  | .node s₁, .node s₂ => entityEq (inner s₁) (inner s₂)
  | .node _, _ => .error "AttributeError"
  | _, .node _ => .error "AttributeError"
  | .cls a, .cls b => .ok (a == b)
  | .fieldMap f₁, .fieldMap f₂ =>
    if f₁.length ≠ f₂.length then .ok false else dictEqGo f₁ f₂
  | .pair k₁ v₁, .pair k₂ v₂ =>
    match entityEq (.node k₁) (.node k₂) with
    | .error e => .error e
    | .ok false => .ok false
    | .ok true => entityEq (.node v₁) (.node v₂)
  | _, _ => .ok false
termination_by e₁ e₂ => sizeOf e₁ + sizeOf e₂
decreasing_by
  · cases s₁ <;> cases s₂ <;> simp [inner] <;> omega
  · simp; omega
  · cases v₁ <;> cases v₂ <;> simp <;> omega
  · cases k₁ <;> cases k₂ <;> simp <;> omega

/-- Dict equality step: every key of the first dict must be present in
the second with `==`-equal values (lengths already checked). -/
def dictEqGo : List (String × SpecNode) → List (String × SpecNode) →
    Except String Bool
  | [], _ => .ok true
  | (k, v) :: rest, f₂ =>
    match h : f₂.find? (fun q => q.1 == k) with
    | none => .ok false
    | some q =>
      match entityEq (.node v) (.node q.2) with
      | .error e => .error e
      | .ok false => .ok false
      | .ok true => dictEqGo rest f₂
termination_by f₁ f₂ => sizeOf f₁ + sizeOf f₂
decreasing_by
  all_goals
    first
      | (simp <;> omega)
      | (have hm := List.mem_of_find?_eq_some h
         have h2 := List.sizeOf_lt_of_mem hm
         obtain ⟨a, b⟩ := q
         simp at h2 ⊢
         omega)

end

/-- Python `node == other` for an arbitrary Python value `other`:
`Spec.__eq__` reads `other.spec`, which raises `AttributeError` unless
`other` is itself a `Spec` instance. -/
def specEqObj (s : SpecNode) (v : PyVal) : Except String Bool :=
  match v with
  | .vSpecInst s₂ => entityEq (inner s) (inner s₂)
  | _ => .error "AttributeError"

/-- No duplicate strings. -/
def nodupStr : List String → Bool
  | [] => true
  | x :: r => r.all (fun y => y != x) && nodupStr r

mutual

/-- Well-formed node: every Model's field dict has pairwise distinct
keys (automatic for nodes built by `Model.validate_spec`, whose spec is
a Python dict). -/
def nodeWF : SpecNode → Bool
  | .atom _ => true
  | .seq e => nodeWF e
  | .mapS k v => nodeWF k && nodeWF v
  | .model fs => nodupStr (fs.map Prod.fst) && fieldsWF fs

/-- Well-formedness of all field sub-nodes. -/
def fieldsWF : List (String × SpecNode) → Bool
  | [] => true
  | (_, s) :: rest => nodeWF s && fieldsWF rest

end

/-! ## `Atom.validate_spec` -/

/-- The `SchemaError(atom_node, *parts)` message. -/
def schemaAtomMsg (parts : List String) : String :=
  joinParts ("invalid schema" :: "Atom" :: parts)

/-- Model of `Atom.validate_spec(spec)`:
`is_type = issubclass(type(spec), type)` holds exactly for type
objects; `is_spec` is `issubclass(spec, Spec)` for types and
`isinstance(spec, Spec)` otherwise; a Spec class or instance is
rejected with "cannot be a Spec", any other non-type with a
wrong-type `SchemaError`. -/
def atomValidateSpec : PyVal → Except String PyCls
  | .vType c =>
    if isSpecCls c then .error (schemaAtomMsg ["cannot be a Spec"])
    else .ok c
  | .vSpecInst _ => .error (schemaAtomMsg ["cannot be a Spec"])
  | v => .error (schemaAtomMsg ["wrong type",
      "expected 'type', got '" ++ valTypeName v ++ "'"])

/-! ## The type-dispatch registry (`utils.SubclassDict`)

Python type objects are abstracted as numeric identifiers inside a
`TypeUniv` giving each type its `__mro__` and the extra (virtual)
`issubclass` pairs contributed by ABC registration. -/

/-- A universe of Python types: `mro t` is `t.__mro__` (starting at `t`
itself and ending with `object`), and `virt t k` holds when
`issubclass(t, k)` is true only virtually (ABC registration), with `k`
not a member of `t.__mro__`. -/
structure TypeUniv where
  mro : Nat → List Nat
  virt : Nat → Nat → Bool

/-- Model of `issubclass(c, k)`: real superclasses come from the MRO, virtual
ones from ABC registration. -/
def pySubclass (u : TypeUniv) (c k : Nat) : Bool :=
  (u.mro c).contains k || u.virt c k

/-- Python `list.index`, as an option instead of `ValueError`. -/
def listIndexOf : List Nat → Nat → Option Nat
  | [], _ => none
  | x :: r, k => if x = k then some 0 else (listIndexOf r k).map (· + 1)

/-- One step of the nearest-ancestor scan in `SubclassDict.__getitem__`:
keep the match with the least MRO index, skipping matches that do not
occur in the MRO slice (`ValueError` → `continue`). -/
def bestStep (mro' : List Nat) (acc : Option (Nat × Nat)) (m : Nat) :
    Option (Nat × Nat) :=
  match listIndexOf mro' m with
  | none => acc
  | some idx =>
    match acc with
    | none => some (idx, m)
    | some (minIdx, best) =>
      if idx < minIdx then some (idx, m) else some (minIdx, best)

/-- Model of `OrderedDict.__getitem__` on the registry's backing store. -/
def assocGet {α : Type} (data : List (Nat × α)) (k : Nat) : Option α :=
  (data.find? (fun p => p.1 == k)).map (·.2)

/-- The tail of `SubclassDict.__getitem__` once the match list is
collected: a unique match is returned; several matches are resolved by
the least index in `item.__mro__[:-1]`; when none of several matches
occurs there, `best_match` stays `None` and `self.data[None]` raises
`KeyError`, and no match at all raises `KeyError(item)` — both are
`none` here. -/
def sdResolve {α : Type} (u : TypeUniv) (data : List (Nat × α))
    (item : Nat) : List Nat → Option α
  | [] => none
  | [m] => assocGet data m
  | m1 :: m2 :: ms =>
    match (m1 :: m2 :: ms).foldl (bestStep ((u.mro item).dropLast)) none with
    | some best => assocGet data best.2
    | none => none

/-- Model of `SubclassDict.__getitem__(item)`: collect the registered keys that
`item` is a subclass of, in insertion order, then resolve. -/
def sdGetItem {α : Type} (u : TypeUniv) (data : List (Nat × α))
    (item : Nat) : Option α :=
  sdResolve u data item
    ((data.map (·.1)).filter (fun k => pySubclass u item k))

/-! ## Claim theorems, counterexamples and witnesses -/

/-- C1, counterexample: a Map node built from `(str, int)` accepts the
mapping whose value "x" the value node rejects, and returns it
unchanged — Map value validation does not check entries. -/
theorem map_validate_counterexample :
    validate (.mapS (.atom .strC) (.atom .intC)) (.vDict [(.vStr "a", .vStr "x")])
      = .ok (.vDict [(.vStr "a", .vStr "x")]) ∧
    validate (.atom .intC) (.vStr "x")
      = .error "invalid value for Atom: wrong type: expected 'int', got 'str'" :=
  ⟨rfl, rfl⟩

/-- C1, amended: since `Map` does not override `validate`, a Map node
validates a value with `Spec.validate` alone: it requires the value to
be a mapping (wrong-type ValidationError otherwise) and returns it
unchanged; the key node and value node are not applied to the
entries. -/
theorem map_validate_amended (k w : SpecNode) (v : PyVal) :
    (isinst v .mappingABC = true → validateSt (.mapS k w) v = (.ok v, v)) ∧
    (isinst v .mappingABC = false →
      validateSt (.mapS k w) v = (.error (wrongTypeMsg (.mapS k w) v), v)) := by
  constructor <;> intro h <;> simp [validateSt, h]

/-- Witness for C1 at a concrete mapping. -/
theorem map_validate_amended_witness :
    isinst (PyVal.vDict [(.vStr "a", .vStr "x")]) .mappingABC = true ∧
    validateSt (.mapS (.atom .strC) (.atom .intC)) (.vDict [(.vStr "a", .vStr "x")])
      = (.ok (.vDict [(.vStr "a", .vStr "x")]), .vDict [(.vStr "a", .vStr "x")]) :=
  ⟨rfl, (map_validate_amended _ _ _).1 rfl⟩

/-- C2, counterexample: `innermost()` on a Model node stops at the
field mapping — an entity that is not a Spec node but also not a
concrete type object. -/
theorem innermost_model_counterexample :
    innermost (.model [("a", .atom .intC)]) = .fieldMap [("a", .atom .intC)] ∧
    (innermost (.model [("a", .atom .intC)])).isCls = false :=
  ⟨rfl, rfl⟩

/-- C2, amended: `innermost()` never returns a Spec node — it unwraps
through child nodes and stops at the first non-node entity — but that
entity is a concrete type only for nestings of Seq around Atom; when
the unwrapping reaches a Model it is the field mapping (and for Map
the key/value pair). -/
theorem innermost_amended : ∀ s : SpecNode,
    (innermost s).isNode = false ∧
    (seqAtomOnly s = true → (innermost s).isCls = true)
  | .atom t => ⟨rfl, fun _ => rfl⟩
  | .model fs => ⟨rfl, by simp [seqAtomOnly]⟩
  | .seq e => by simpa [innermost, seqAtomOnly] using innermost_amended e
  | .mapS k v => ⟨rfl, by simp [seqAtomOnly]⟩

/-- Witness for C2 on a Seq-around-Atom chain. -/
theorem innermost_amended_witness :
    seqAtomOnly (.seq (.atom .intC)) = true ∧
    (innermost (.seq (.atom .intC))).isCls = true :=
  ⟨rfl, (innermost_amended (.seq (.atom .intC))).2 rfl⟩

/-- C8: for every concrete non-Spec type `T`, `Atom(T)` construction
succeeds and stores `T` as the base type; construction raises
SchemaError for every Spec class, every Spec instance, and every
non-type value, including `True` and `5`. -/
theorem atom_construction :
    (∀ c : PyCls, isSpecCls c = false →
        atomValidateSpec (.vType c) = .ok c ∧ baseTy (.atom c) = .cls c) ∧
    (∀ c : PyCls, isSpecCls c = true →
        atomValidateSpec (.vType c) = .error (schemaAtomMsg ["cannot be a Spec"])) ∧
    (∀ s : SpecNode,
        atomValidateSpec (.vSpecInst s) = .error (schemaAtomMsg ["cannot be a Spec"])) ∧
    (∀ v : PyVal, isVType v = false → ∀ c, atomValidateSpec v ≠ .ok c) ∧
    atomValidateSpec (.vBool true)
      = .error "invalid schema: Atom: wrong type: expected 'type', got 'bool'" ∧
    atomValidateSpec (.vInt 5)
      = .error "invalid schema: Atom: wrong type: expected 'type', got 'int'" := by
  refine ⟨?_, ?_, ?_, ?_, rfl, rfl⟩
  · intro c h
    exact ⟨by simp [atomValidateSpec, h], rfl⟩
  · intro c h
    simp [atomValidateSpec, h]
  · intro s
    rfl
  · intro v h c
    cases v <;> simp_all [atomValidateSpec, isVType]

/-- Witness for C8 at concrete inputs. -/
theorem atom_construction_witness :
    isSpecCls PyCls.intC = false ∧
    atomValidateSpec (.vType .intC) = .ok .intC ∧
    isSpecCls PyCls.atomC = true ∧
    atomValidateSpec (.vType .atomC) = .error (schemaAtomMsg ["cannot be a Spec"]) ∧
    isVType (PyVal.vInt 5) = false ∧
    atomValidateSpec (.vInt 5) ≠ .ok PyCls.intC :=
  ⟨rfl, (atom_construction.1 .intC rfl).1, rfl, atom_construction.2.1 .atomC rfl, rfl,
    atom_construction.2.2.2.1 (.vInt 5) rfl .intC⟩

/-- Helper: when every element/result pair is related by a successful
validation, the generator yields exactly the results, in order. -/
theorem seqElems_ok (f : PyVal → Except String PyVal × PyVal) :
    ∀ {items results : List PyVal},
      List.Forall₂ (fun x r => (f x).1 = .ok r) items results →
      (seqElems f items).1 = .ok results := by
  intro items results h
  induction h with
  | nil => rfl
  | @cons x r xs rs hxr _ ih =>
    rcases hfx : f x with ⟨rx, x'⟩
    rw [hfx] at hxr
    simp only at hxr
    subst hxr
    simp [seqElems, hfx, ih, Except.map]

/-- Helper: the first failing element aborts the generator with exactly
its own error. -/
theorem seqElems_err (f : PyVal → Except String PyVal × PyVal) :
    ∀ (pre : List PyVal) (x : PyVal) (post : List PyVal) (e : String),
      (∀ y ∈ pre, ∃ r, (f y).1 = .ok r) → (f x).1 = .error e →
      (seqElems f (pre ++ x :: post)).1 = .error e := by
  intro pre
  induction pre with
  | nil =>
    intro x post e _ hx
    rcases hfx : f x with ⟨rx, x'⟩
    rw [hfx] at hx
    simp only at hx
    subst hx
    simp [seqElems, hfx]
  | cons y ys ih =>
    intro x post e hpre hx
    obtain ⟨r, hy⟩ := hpre y (List.mem_cons_self y ys)
    rcases hfy : f y with ⟨ry, y'⟩
    rw [hfy] at hy
    simp only at hy
    subst hy
    have h2 := ih x post e (fun z hz => hpre z (List.mem_cons_of_mem y hz)) hx
    simp [seqElems, hfy, h2, Except.map]

/-- Helper: `Model.validate` returns the (final state of the) very
mapping it was given: on success the second component equals the
result. -/
theorem modelFields_ok_state :
    ∀ (fs : List (String × SpecNode)) (pairs : List (PyVal × PyVal)) (r : PyVal),
      (modelFields fs pairs).1 = .ok r → (modelFields fs pairs).2 = r := by
  intro fs
  induction fs with
  | nil =>
    intro pairs r h
    simp_all [modelFields]
  | cons p rest ih =>
    intro pairs r h
    obtain ⟨f, sp⟩ := p
    simp only [modelFields] at h ⊢
    cases hl : pLookup pairs (.vStr f) with
    | none =>
      rw [hl] at h
      simp at h
    | some x =>
      rw [hl] at h
      dsimp only at h ⊢
      rcases hv : validateSt sp x with ⟨rv, x'⟩
      rw [hv] at h
      cases rv with
      | error e => simp at h
      | ok xr => exact ih _ _ h

/-- C3, counterexample: validating `{"x": "ab"}` against
`Model({"x": Seq(str)})` writes the Seq reconstruction — the generator
repr — back into the input mapping: the final state of the input
differs from the original. -/
theorem model_validate_mutates_counterexample :
    (validateSt (.model [("x", .seq (.atom .strC))])
        (.vDict [(.vStr "x", .vStr "ab")])).2
      = .vDict [(.vStr "x", .vStr genRepr)] ∧
    (validateSt (.model [("x", .seq (.atom .strC))])
        (.vDict [(.vStr "x", .vStr "ab")])).2
      ≠ .vDict [(.vStr "x", .vStr "ab")] := by
  refine ⟨rfl, ?_⟩
  intro h
  have h1 : (validateSt (.model [("x", .seq (.atom .strC))])
      (.vDict [(.vStr "x", .vStr "ab")])).2
      = .vDict [(.vStr "x", .vStr genRepr)] := rfl
  rw [h1] at h
  injection h with h
  injection h with hhd _
  injection hhd with _ hval
  injection hval with hs
  exact absurd hs (by decide)

/-- C3, amended: validation never changes the node (the source writes
no node state, so the embedding threads none), and Atom validation
leaves its input untouched; but `Model.validate` rewrites validated
fields in place inside the input mapping and returns that same
mapping, so on success the final state of the input equals the
returned value. -/
theorem validate_mutation_amended (t : PyCls) (fs : List (String × SpecNode))
    (v r : PyVal) :
    (validateSt (.atom t) v).2 = v ∧
    (validate (.model fs) v = .ok r → (validateSt (.model fs) v).2 = r) := by
  constructor
  · simp only [validateSt]
    split <;> rfl
  · intro h
    unfold validate at h
    cases v with
    | vDict pairs =>
      simp only [validateSt] at h ⊢
      by_cases h1 : pairs.length > fs.length
      · simp [h1] at h
      · by_cases h2 : pairs.length < fs.length
        · simp [h1, h2] at h
        · simp only [h1, h2, if_false] at h ⊢
          exact modelFields_ok_state _ _ _ h
    | vInt n => exact absurd h (by simp [validateSt])
    | vBool b => exact absurd h (by simp [validateSt])
    | vStr s => exact absurd h (by simp [validateSt])
    | vNone => exact absurd h (by simp [validateSt])
    | vList l => exact absurd h (by simp [validateSt])
    | vTuple l => exact absurd h (by simp [validateSt])
    | vType c => exact absurd h (by simp [validateSt])
    | vSpecInst n => exact absurd h (by simp [validateSt])

/-- Witness for C3 at a concrete model and mapping. -/
theorem validate_mutation_amended_witness :
    (validateSt (.atom .intC) (.vInt 3)).2 = .vInt 3 ∧
    validate (.model [("a", .atom .intC)]) (.vDict [(.vStr "a", .vInt 3)])
      = .ok (.vDict [(.vStr "a", .vInt 3)]) ∧
    (validateSt (.model [("a", .atom .intC)]) (.vDict [(.vStr "a", .vInt 3)])).2
      = .vDict [(.vStr "a", .vInt 3)] :=
  ⟨(validate_mutation_amended .intC [("a", .atom .intC)] (.vInt 3)
      (.vDict [(.vStr "a", .vInt 3)])).1,
   rfl,
   (validate_mutation_amended .intC [("a", .atom .intC)]
      (.vDict [(.vStr "a", .vInt 3)]) (.vDict [(.vStr "a", .vInt 3)])).2 rfl⟩

/-- C4, counterexample: `Seq(int).validate([1, 2, "x"])` raises exactly
the element Atom node error, whose message mentions no index — in
particular it does not reference index 2. -/
theorem error_context_counterexample :
    validate (.seq (.atom .intC)) (.vList [.vInt 1, .vInt 2, .vStr "x"])
      = .error "invalid value for Atom: wrong type: expected 'int', got 'str'" ∧
    validate (.atom .intC) (.vStr "x")
      = .error "invalid value for Atom: wrong type: expected 'int', got 'str'" ∧
    "invalid value for Atom: wrong type: expected 'int', got 'str'".toList.contains '2'
      = false :=
  ⟨rfl, rfl, by decide⟩

/-- C4, amended: a nested field or element failure propagates the inner
ValidationError unchanged to the caller; no outer field name or element
index context is prepended. -/
theorem error_propagation_amended :
    (∀ (f : String) (sp : SpecNode) (rest : List (String × SpecNode))
        (pairs : List (PyVal × PyVal)) (x : PyVal) (e : String),
        pLookup pairs (.vStr f) = some x →
        (validateSt sp x).1 = .error e →
        (modelFields ((f, sp) :: rest) pairs).1 = .error e) ∧
    (∀ (es : SpecNode) (pre : List PyVal) (x : PyVal) (post : List PyVal)
        (e : String),
        (∀ y ∈ pre, ∃ r, (validateSt es y).1 = .ok r) →
        (validateSt es x).1 = .error e →
        validate (.seq es) (.vList (pre ++ x :: post)) = .error e) := by
  constructor
  · intro f sp rest pairs x e hl he
    rcases hv : validateSt sp x with ⟨rv, x'⟩
    rw [hv] at he
    simp only at he
    subst he
    simp [modelFields, hl, hv]
  · intro es pre x post e hpre hx
    have hel := seqElems_err (fun y => validateSt es y) pre x post e hpre hx
    simp [validate, validateSt, hel, Except.map]

/-- Witness for C4 at a concrete failing field. -/
theorem error_propagation_amended_witness :
    pLookup [(PyVal.vStr "a", PyVal.vStr "oops")] (.vStr "a")
      = some (.vStr "oops") ∧
    (validateSt (.atom .intC) (.vStr "oops")).1
      = .error "invalid value for Atom: wrong type: expected 'int', got 'str'" ∧
    (modelFields [("a", .atom .intC)] [(PyVal.vStr "a", PyVal.vStr "oops")]).1
      = .error "invalid value for Atom: wrong type: expected 'int', got 'str'" :=
  ⟨rfl, rfl, error_propagation_amended.1 "a" (.atom .intC) [] _ _ _ rfl rfl⟩

/-- C6, counterexample: a `str` is a Python Sequence, but
`Seq(int).validate("12")` succeeds and returns the generator repr:
`str(generator)` never consumes the generator, so the failing elements
are not even validated and the result does not hold the input
elements. -/
theorem seq_str_counterexample :
    validate (.seq (.atom .intC)) (.vStr "12") = .ok (.vStr genRepr) ∧
    validate (.atom .intC) (.vStr "1")
      = .error "invalid value for Atom: wrong type: expected 'int', got 'str'" ∧
    genRepr ≠ "12" :=
  ⟨rfl, rfl, by decide⟩

/-- C6, amended: for `list` and `tuple` inputs, `Seq.validate`
preserves the concrete container type and element order and aborts
with the error of the first failing element; for `str` inputs the
container reconstruction returns the generator repr without validating
any element, and non-sequences are rejected with the wrong-type
error. -/
theorem seq_validate_amended :
    (∀ (es : SpecNode) (items results : List PyVal),
        List.Forall₂ (fun x r => (validateSt es x).1 = .ok r) items results →
        validate (.seq es) (.vList items) = .ok (.vList results) ∧
        validate (.seq es) (.vTuple items) = .ok (.vTuple results)) ∧
    (∀ (es : SpecNode) (pre : List PyVal) (x : PyVal) (post : List PyVal)
        (e : String),
        (∀ y ∈ pre, ∃ r, (validateSt es y).1 = .ok r) →
        (validateSt es x).1 = .error e →
        validate (.seq es) (.vTuple (pre ++ x :: post)) = .error e) ∧
    (∀ (es : SpecNode) (s : String),
        validate (.seq es) (.vStr s) = .ok (.vStr genRepr)) ∧
    (∀ (es : SpecNode) (n : Int),
        validate (.seq es) (.vInt n)
          = .error (wrongTypeMsg (.seq es) (.vInt n))) := by
  refine ⟨?_, ?_, fun es s => rfl, fun es n => rfl⟩
  · intro es items results h
    have hel := seqElems_ok (fun y => validateSt es y) h
    constructor <;> simp [validate, validateSt, hel, Except.map]
  · intro es pre x post e hpre hx
    have hel := seqElems_err (fun y => validateSt es y) pre x post e hpre hx
    simp [validate, validateSt, hel, Except.map]

/-- Witness for C6 on a concrete list. -/
theorem seq_validate_amended_witness :
    List.Forall₂ (fun x r => (validateSt (.atom .intC) x).1 = .ok r)
      [PyVal.vInt 1, PyVal.vInt 2] [PyVal.vInt 1, PyVal.vInt 2] ∧
    validate (.seq (.atom .intC)) (.vList [.vInt 1, .vInt 2])
      = .ok (.vList [.vInt 1, .vInt 2]) :=
  ⟨List.Forall₂.cons rfl (List.Forall₂.cons rfl List.Forall₂.nil),
   (seq_validate_amended.1 (.atom .intC) [.vInt 1, .vInt 2] [.vInt 1, .vInt 2]
      (List.Forall₂.cons rfl (List.Forall₂.cons rfl List.Forall₂.nil))).1⟩


/-- Helper: `pyBEq` against a string key means equality with it. -/
theorem pyBEq_vStr_iff (y : PyVal) (s : String) :
    pyBEq y (.vStr s) = true ↔ y = .vStr s := by
  cases y <;> simp [pyBEq]

/-- Helper: writing one field of a dict leaves lookups of any other
string key unchanged. -/
theorem pLookup_pSet_vStr_ne (pairs : List (PyVal × PyVal)) (f g : String)
    (x : PyVal) (h : f ≠ g) :
    pLookup (pSet pairs (.vStr f) x) (.vStr g) = pLookup pairs (.vStr g) := by
  induction pairs with
  | nil => rfl
  | cons p ps ih =>
    by_cases hpf : pyBEq p.1 (.vStr f) = true
    · have hpfe : p.1 = .vStr f := (pyBEq_vStr_iff _ _).mp hpf
      have hg : pyBEq p.1 (.vStr g) = false := by
        rw [hpfe]
        simp [pyBEq]
        exact h
      simp [pLookup, pSet, hpf, hg, ih]
    · simp [pLookup, pSet, hpf, ih]

/-- Helper: the per-field loop of `Model.validate` succeeds exactly when
every declared field is present and its value passes that field node. -/
theorem modelFields_ok_iff :
    ∀ (fs : List (String × SpecNode)) (pairs : List (PyVal × PyVal)),
      nodupStr (fs.map Prod.fst) = true →
      ((∃ r, (modelFields fs pairs).1 = .ok r) ↔
        ∀ p ∈ fs, ∃ x, pLookup pairs (.vStr p.1) = some x ∧
          ∃ rr, validate p.2 x = .ok rr) := by
  intro fs
  induction fs with
  | nil =>
    intro pairs _
    simp [modelFields]
  | cons p rest ih =>
    intro pairs hn
    obtain ⟨f, sp⟩ := p
    simp only [List.map_cons, nodupStr, Bool.and_eq_true] at hn
    obtain ⟨hnf, hnr⟩ := hn
    have hfnm : ∀ q : String × SpecNode, q ∈ rest → q.1 ≠ f := by
      intro q hq
      have := List.all_eq_true.mp hnf q.1 (List.mem_map_of_mem Prod.fst hq)
      simpa using this
    simp only [modelFields]
    cases hl : pLookup pairs (.vStr f) with
    | none =>
      constructor
      · intro ⟨r, hr⟩
        simp at hr
      · intro hR
        obtain ⟨x, hx, _⟩ := hR (f, sp) (List.mem_cons_self _ _)
        rw [hl] at hx
        simp at hx
    | some x =>
      dsimp only
      rcases hv : validateSt sp x with ⟨rv, x'⟩
      cases rv with
      | error e =>
        constructor
        · intro ⟨r, hr⟩
          simp at hr
        · intro hR
          obtain ⟨x₀, hx₀, rr, hrr⟩ := hR (f, sp) (List.mem_cons_self _ _)
          rw [hl] at hx₀
          injection hx₀ with hx₀
          subst hx₀
          unfold validate at hrr
          rw [hv] at hrr
          simp at hrr
      | ok xr =>
        have htrans : ∀ q : String × SpecNode, q ∈ rest →
            pLookup (pSet pairs (.vStr f) xr) (.vStr q.1)
              = pLookup pairs (.vStr q.1) := by
          intro q hq
          apply pLookup_pSet_vStr_ne
          intro hfq
          exact hfnm q hq hfq.symm
        have hih := ih (pSet pairs (.vStr f) xr) hnr
        constructor
        · intro hex
          replace hex : ∃ r, (modelFields rest (pSet pairs (.vStr f) xr)).1
              = Except.ok r := hex
          intro q hq
          rcases List.mem_cons.mp hq with rfl | hq'
          · refine ⟨x, hl, xr, ?_⟩
            unfold validate
            rw [hv]
          · have hrest := hih.mp hex q hq'
            rwa [htrans q hq'] at hrest
        · intro hR
          show ∃ r, (modelFields rest (pSet pairs (.vStr f) xr)).1 = Except.ok r
          apply hih.mpr
          intro q hq
          have hq2 := hR q (List.mem_cons_of_mem _ hq)
          rwa [← htrans q hq] at hq2

/-- C5: `Model(F).validate(v)` succeeds exactly when `v` is a mapping
with as many entries as `F` has fields, every declared field is
present, and every field value passes that field node; any non-mapping
is rejected with the wrong-type error, and entry counts off by one in
either direction are always rejected. -/
theorem model_validate_iff (fs : List (String × SpecNode))
    (pairs : List (PyVal × PyVal))
    (hf : nodupStr (fs.map Prod.fst) = true) :
    ((∃ r, validate (.model fs) (.vDict pairs) = .ok r) ↔
      (pairs.length = fs.length ∧
        ∀ p ∈ fs, ∃ x, pLookup pairs (.vStr p.1) = some x ∧
          ∃ rr, validate p.2 x = .ok rr)) ∧
    (∀ v : PyVal, isinst v .mappingABC = false →
        validate (.model fs) v = .error (wrongTypeMsg (.model fs) v)) ∧
    (pairs.length = fs.length + 1 →
        validate (.model fs) (.vDict pairs)
          = .error (tooManyMsg fs.length pairs.length)) ∧
    (fs.length = pairs.length + 1 →
        validate (.model fs) (.vDict pairs)
          = .error (tooFewMsg fs.length pairs.length)) := by
  refine ⟨?_, ?_, ?_, ?_⟩
  · by_cases h1 : pairs.length > fs.length
    · constructor
      · intro ⟨r, hr⟩
        simp [validate, validateSt, h1] at hr
      · intro ⟨hlen, _⟩
        omega
    · by_cases h2 : pairs.length < fs.length
      · constructor
        · intro ⟨r, hr⟩
          simp [validate, validateSt, h1, h2] at hr
        · intro ⟨hlen, _⟩
          omega
      · have hmf := modelFields_ok_iff fs pairs hf
        constructor
        · intro hex
          refine ⟨by omega, ?_⟩
          apply hmf.mp
          obtain ⟨r, hr⟩ := hex
          refine ⟨r, ?_⟩
          simpa [validate, validateSt, h1, h2] using hr
        · intro ⟨_, hR⟩
          obtain ⟨r, hr⟩ := hmf.mpr hR
          exact ⟨r, by simpa [validate, validateSt, h1, h2] using hr⟩
  · intro v hv
    cases v <;> simp_all [validate, validateSt, isinst]
  · intro h1
    have hgt : pairs.length > fs.length := by omega
    simp [validate, validateSt, hgt]
  · intro h2
    have hgt : ¬ pairs.length > fs.length := by omega
    have hlt : pairs.length < fs.length := by omega
    simp [validate, validateSt, hgt, hlt]

/-- Witness for C5: a valid mapping and a one-entry-too-many mapping. -/
theorem model_validate_iff_witness :
    nodupStr ([("a", SpecNode.atom .intC)].map Prod.fst) = true ∧
    (∃ r, validate (.model [("a", .atom .intC)])
        (.vDict [(.vStr "a", .vInt 1)]) = .ok r) ∧
    ¬ (∃ r, validate (.model [("a", .atom .intC)])
        (.vDict [(.vStr "a", .vInt 1), (.vStr "b", .vInt 2)]) = .ok r) := by
  refine ⟨rfl, ?_, ?_⟩
  · apply (model_validate_iff [("a", .atom .intC)] [(.vStr "a", .vInt 1)] rfl).1.mpr
    refine ⟨rfl, ?_⟩
    intro p hp
    simp only [List.mem_singleton] at hp
    subst hp
    exact ⟨.vInt 1, rfl, .vInt 1, rfl⟩
  · intro hex
    have h := (model_validate_iff [("a", .atom .intC)]
        [(.vStr "a", .vInt 1), (.vStr "b", .vInt 2)] rfl).1.mp hex
    simp at h

/-- Helper: `listIndexOf` yields `none` exactly for non-members. -/
theorem listIndexOf_eq_none_iff (l : List Nat) (k : Nat) :
    listIndexOf l k = none ↔ k ∉ l := by
  induction l with
  | nil => simp [listIndexOf]
  | cons x r ih =>
    simp only [listIndexOf, List.mem_cons]
    by_cases hx : x = k
    · subst hx
      rw [if_pos rfl]
      simp
    · rw [if_neg hx]
      simp only [Option.map_eq_none']
      rw [ih]
      constructor
      · intro h hc
        rcases hc with rfl | hm
        · exact hx rfl
        · exact h hm
      · intro h hm
        exact h (Or.inr hm)

/-- Helper: when no scanned match occurs in the MRO slice, the fold of
`bestStep` never leaves `none`. -/
theorem bestStep_fold_none (mro' : List Nat) :
    ∀ ms : List Nat, (∀ m ∈ ms, listIndexOf mro' m = none) →
      ms.foldl (bestStep mro') none = none := by
  intro ms
  induction ms with
  | nil => intro _; rfl
  | cons m rest ih =>
    intro h
    have hm := h m (List.mem_cons_self _ _)
    simp only [List.foldl_cons, bestStep, hm]
    exact ih (fun y hy => h y (List.mem_cons_of_mem _ hy))

/-- Helper: `assocGet` succeeds for every key present in the store. -/
theorem assocGet_mem {α : Type} (data : List (Nat × α)) (k : Nat)
    (h : k ∈ data.map (·.1)) : ∃ y, assocGet data k = some y := by
  induction data with
  | nil => simp at h
  | cons p ps ih =>
    by_cases hp : p.1 = k
    · exact ⟨p.2, by simp [assocGet, List.find?, hp]⟩
    · have h' : k ∈ ps.map (·.1) := by
        simp only [List.map_cons, List.mem_cons] at h
        exact h.resolve_left (fun he => hp he.symm)
      obtain ⟨y, hy⟩ := ih h'
      refine ⟨y, ?_⟩
      simp only [assocGet, List.find?] at hy ⊢
      have hpk : (p.1 == k) = false := by
        simp [hp]
      rw [hpk]
      exact hy

/-- C7: with keys `{A, B}` registered and `B` a subclass of `A` (so `B`
precedes `A` in the `__mro__` of any common real subclass `C`, by C3
linearisation), looking up `C` returns the handler of `B`, the nearest
ancestor in the inheritance order of `C`; looking up a type `D` that is
a subclass of neither key raises `KeyError`. -/
theorem registry_nearest_ancestor {α : Type} (u : TypeUniv) (A B C D : Nat)
    (a b : α) (data : List (Nat × α))
    (hdata : data = [(A, a), (B, b)] ∨ data = [(B, b), (A, a)])
    (hAB : A ≠ B)
    (iA iB : Nat)
    (hiA : listIndexOf ((u.mro C).dropLast) A = some iA)
    (hiB : listIndexOf ((u.mro C).dropLast) B = some iB)
    (hBA : iB < iA)
    (hDA : pySubclass u D A = false) (hDB : pySubclass u D B = false) :
    sdGetItem u data C = some b ∧ sdGetItem u data D = none := by
  have hmemA : A ∈ (u.mro C).dropLast := by
    by_contra hmem
    rw [← listIndexOf_eq_none_iff] at hmem
    rw [hiA] at hmem
    cases hmem
  have hmemB : B ∈ (u.mro C).dropLast := by
    by_contra hmem
    rw [← listIndexOf_eq_none_iff] at hmem
    rw [hiB] at hmem
    cases hmem
  have hsubA : pySubclass u C A = true := by
    have hA : A ∈ u.mro C := (List.dropLast_sublist (u.mro C)).subset hmemA
    simp [pySubclass, hA]
  have hsubB : pySubclass u C B = true := by
    have hB : B ∈ u.mro C := (List.dropLast_sublist (u.mro C)).subset hmemB
    simp [pySubclass, hB]
  have hABne : (A == B) = false := by
    simp [hAB]
  have hBB : (B == B) = true := by
    simp
  constructor
  · rcases hdata with rfl | rfl
    · have hfilter : (([(A, a), (B, b)].map (·.1)).filter
          (fun k => pySubclass u C k)) = [A, B] := by
        simp [List.filter, hsubA, hsubB]
      unfold sdGetItem
      rw [hfilter]
      simp only [sdResolve, List.foldl_cons, List.foldl_nil, bestStep,
        hiA, hiB]
      rw [if_pos hBA]
      simp [assocGet, List.find?, hABne, hBB]
    · have hfilter : (([(B, b), (A, a)].map (·.1)).filter
          (fun k => pySubclass u C k)) = [B, A] := by
        simp [List.filter, hsubA, hsubB]
      unfold sdGetItem
      rw [hfilter]
      simp only [sdResolve, List.foldl_cons, List.foldl_nil, bestStep,
        hiA, hiB]
      rw [if_neg (by omega : ¬ iA < iB)]
      simp [assocGet, List.find?, hBB]
  · rcases hdata with rfl | rfl
    · have hfilter : (([(A, a), (B, b)].map (·.1)).filter
          (fun k => pySubclass u D k)) = [] := by
        simp [List.filter, hDA, hDB]
      unfold sdGetItem
      rw [hfilter]
      rfl
    · have hfilter : (([(B, b), (A, a)].map (·.1)).filter
          (fun k => pySubclass u D k)) = [] := by
        simp [List.filter, hDA, hDB]
      unfold sdGetItem
      rw [hfilter]
      rfl

/-- C7 witness universe: types 0 (= A), 1 (= B, subclass of A),
2 (= C, subclass of B), 3 (= D, unrelated), 99 (= object). -/
def demoUniv : TypeUniv where
  mro := fun n =>
    if n = 2 then [2, 1, 0, 99]
    else if n = 1 then [1, 0, 99]
    else if n = 0 then [0, 99]
    else if n = 3 then [3, 99]
    else [99]
  virt := fun _ _ => false

/-- Witness for C7 in the demo universe. -/
theorem registry_nearest_ancestor_witness :
    listIndexOf ((demoUniv.mro 2).dropLast) 0 = some 2 ∧
    listIndexOf ((demoUniv.mro 2).dropLast) 1 = some 1 ∧
    pySubclass demoUniv 3 0 = false ∧
    pySubclass demoUniv 3 1 = false ∧
    sdGetItem demoUniv [(0, "modelHandler"), (1, "seqHandler")] 2
      = some "seqHandler" ∧
    sdGetItem demoUniv [(0, "modelHandler"), (1, "seqHandler")] 3 = none := by
  refine ⟨rfl, rfl, rfl, rfl, ?_, ?_⟩
  · exact (registry_nearest_ancestor demoUniv 0 1 2 3 "modelHandler"
      "seqHandler" _ (Or.inl rfl) (by decide) 2 1 rfl rfl (by decide)
      rfl rfl).1
  · exact (registry_nearest_ancestor demoUniv 0 1 2 3 "modelHandler"
      "seqHandler" _ (Or.inl rfl) (by decide) 2 1 rfl rfl (by decide)
      rfl rfl).2

/-- C9: when several registered keys match the queried type only
virtually (none of them occurs in the query type MRO), the tie-break
finds no best match and `self.data[None]` raises `KeyError`; a single
virtual-only match, by contrast, is returned normally. -/
theorem registry_virtual_matches {α : Type} (u : TypeUniv)
    (data : List (Nat × α)) (Q : Nat) :
    (∀ m1 m2 ms, (data.map (·.1)).filter (fun k => pySubclass u Q k)
          = m1 :: m2 :: ms →
        (∀ m ∈ m1 :: m2 :: ms, m ∉ u.mro Q) →
        sdGetItem u data Q = none) ∧
    (∀ m, (data.map (·.1)).filter (fun k => pySubclass u Q k) = [m] →
        m ∉ u.mro Q →
        ∃ hv, sdGetItem u data Q = some hv ∧ assocGet data m = some hv) := by
  constructor
  · intro m1 m2 ms hfilter hnm
    unfold sdGetItem
    rw [hfilter]
    have hfold : (m1 :: m2 :: ms).foldl
        (bestStep ((u.mro Q).dropLast)) none = none := by
      apply bestStep_fold_none
      intro m hm
      rw [listIndexOf_eq_none_iff]
      intro hmem
      exact hnm m hm ((List.dropLast_sublist (u.mro Q)).subset hmem)
    simp only [sdResolve, hfold]
  · intro m hfilter _
    have hmemk : m ∈ data.map (·.1) := by
      have hmm : m ∈ (data.map (·.1)).filter (fun k => pySubclass u Q k) := by
        rw [hfilter]
        exact List.mem_singleton.mpr rfl
      exact List.mem_of_mem_filter hmm
    obtain ⟨y, hy⟩ := assocGet_mem data m hmemk
    refine ⟨y, ?_, hy⟩
    unfold sdGetItem
    rw [hfilter]
    exact hy

/-- C9 witness universe: type 10 has bare MRO `[10, 99]` but is
virtually registered under both 0 and 1; type 20 is virtually
registered under 0 only. -/
def virtUniv : TypeUniv where
  mro := fun n => if n = 10 then [10, 99] else if n = 20 then [20, 99] else [99]
  virt := fun n k =>
    (n == 10 && (k == 0 || k == 1)) || (n == 20 && k == 0)

/-- Witness for C9 in the virtual universe. -/
theorem registry_virtual_matches_witness :
    ([(0, "h0"), (1, "h1")].map (·.1)).filter
        (fun k => pySubclass virtUniv 10 k) = [0, 1] ∧
    sdGetItem virtUniv [(0, "h0"), (1, "h1")] 10 = none ∧
    ([(0, "h0")].map (·.1)).filter (fun k => pySubclass virtUniv 20 k)
      = [0] ∧
    sdGetItem virtUniv [(0, "h0")] 20 = some "h0" := by
  refine ⟨rfl, ?_, rfl, ?_⟩
  · exact (registry_virtual_matches virtUniv [(0, "h0"), (1, "h1")] 10).1
      0 1 [] rfl (by decide)
  · obtain ⟨y, hy, hy2⟩ := (registry_virtual_matches virtUniv
      [(0, "h0")] 20).2 0 rfl (by decide)
    have hyv : "h0" = y := by
      simpa [assocGet, List.find?] using hy2
    rw [hy, ← hyv]

/-- Helper: one unfolding of `Spec.__eq__` between two nodes. -/
theorem entityEq_node (s₁ s₂ : SpecNode) :
    entityEq (.node s₁) (.node s₂) = entityEq (inner s₁) (inner s₂) := by
  simp only [entityEq]

/-- Helper: in a dict with pairwise distinct keys, looking a key up
finds its own entry. -/
theorem find_self_of_nodup : ∀ (fs : List (String × SpecNode)),
    nodupStr (fs.map Prod.fst) = true →
    ∀ p ∈ fs, fs.find? (fun q => q.1 == p.1) = some p := by
  intro fs
  induction fs with
  | nil =>
    intro _ p hp
    cases hp
  | cons q rest ih =>
    intro hn p hp
    simp only [List.map_cons, nodupStr, Bool.and_eq_true] at hn
    obtain ⟨hq, hnr⟩ := hn
    rcases List.mem_cons.mp hp with rfl | hp'
    · simp [List.find?]
    · have hne : p.1 ≠ q.1 := by
        have hb := List.all_eq_true.mp hq p.1 (List.mem_map_of_mem Prod.fst hp')
        simpa using hb
      have hqp : (q.1 == p.1) = false := by
        simp
        exact fun hc => hne hc.symm
      simp only [List.find?, hqp]
      exact ih hnr p hp'

/-- Helper: all field nodes of a well-formed field list are
well-formed. -/
theorem fieldsWF_mem : ∀ (fs : List (String × SpecNode)),
    fieldsWF fs = true → ∀ p ∈ fs, nodeWF p.2 = true := by
  intro fs
  induction fs with
  | nil =>
    intro _ p hp
    cases hp
  | cons q rest ih =>
    intro hw p hp
    obtain ⟨a, b⟩ := q
    simp only [fieldsWF, Bool.and_eq_true] at hw
    rcases List.mem_cons.mp hp with rfl | hp'
    · exact hw.1
    · exact ih hw.2 p hp'

/-- Helper: dict equality is reflexive when every key finds its own
entry and every value compares equal to itself. -/
theorem dictEqGo_refl : ∀ (f₁ f₂ : List (String × SpecNode)),
    (∀ p ∈ f₁, f₂.find? (fun q => q.1 == p.1) = some p) →
    (∀ p ∈ f₁, entityEq (.node p.2) (.node p.2) = .ok true) →
    dictEqGo f₁ f₂ = .ok true := by
  intro f₁
  induction f₁ with
  | nil =>
    intro f₂ _ _
    simp [dictEqGo]
  | cons p rest ih =>
    intro f₂ hfind heq
    obtain ⟨k, v⟩ := p
    have h1 := hfind (k, v) (List.mem_cons_self _ _)
    have h2 := heq (k, v) (List.mem_cons_self _ _)
    simp only [dictEqGo]
    split
    · rename_i hnone
      rw [h1] at hnone
      cases hnone
    · rename_i q hsome
      rw [h1] at hsome
      injection hsome with hq
      subst hq
      simp only [h2]
      exact ih f₂ (fun q hq => hfind q (List.mem_cons_of_mem _ hq))
        (fun q hq => heq q (List.mem_cons_of_mem _ hq))

/-- Helper: `Spec.__eq__` is reflexive on well-formed nodes: comparing
the inner value of a node with itself yields `True` and raises
nothing. -/
theorem entityEq_inner_refl : ∀ s : SpecNode, nodeWF s = true →
    entityEq (inner s) (inner s) = .ok true
  | .atom t, _ => by
    simp [inner, entityEq]
  | .seq e, hw => by
    have hr := entityEq_inner_refl e (by simpa [nodeWF] using hw)
    simp only [inner]
    rw [entityEq_node]
    exact hr
  | .mapS k v, hw => by
    have hww : nodeWF k = true ∧ nodeWF v = true := by
      simpa [nodeWF, Bool.and_eq_true] using hw
    have hk : entityEq (.node k) (.node k) = .ok true := by
      rw [entityEq_node]
      exact entityEq_inner_refl k hww.1
    have hv : entityEq (.node v) (.node v) = .ok true := by
      rw [entityEq_node]
      exact entityEq_inner_refl v hww.2
    simp only [inner]
    simp only [entityEq, hk, hv]
  | .model fs, hw => by
    have hww : nodupStr (fs.map Prod.fst) = true ∧ fieldsWF fs = true := by
      simpa [nodeWF, Bool.and_eq_true] using hw
    have heq : ∀ p ∈ fs, entityEq (.node p.2) (.node p.2) = .ok true := by
      intro p hp
      rw [entityEq_node]
      exact entityEq_inner_refl p.2 (fieldsWF_mem fs hww.2 p hp)
    have hgo := dictEqGo_refl fs fs (find_self_of_nodup fs hww.1) heq
    simp only [inner]
    simp only [entityEq, hgo]
    simp
termination_by s => sizeOf s
decreasing_by
  all_goals
    first
      | (simp <;> omega)
      | (have hs := List.sizeOf_lt_of_mem hp
         obtain ⟨a, b⟩ := p
         simp at hs ⊢
         omega)

/-- C10, counterexample: comparing the two Spec nodes `Seq(Atom(int))`
and `Atom(int)` raises AttributeError (the inner comparison reads
`.spec` off the bare type `int`), so equality is not total even
between two Spec nodes. -/
theorem spec_eq_counterexample :
    specEqObj (.seq (.atom .intC)) (.vSpecInst (.atom .intC))
      = .error "AttributeError" := by
  show entityEq (inner (.seq (.atom .intC))) (inner (.atom .intC))
    = .error "AttributeError"
  simp [inner, entityEq]

/-- C10, amended: comparing a Spec node with any object that has no
`spec` attribute raises AttributeError rather than returning False;
between two nodes, `==` compares the wrapped inner values with Python
`==`, which yields True on equal well-formed nodes and compares atoms
by their wrapped types, but itself raises AttributeError when one
inner value is a node and the other is not. -/
theorem spec_eq_amended (s : SpecNode) (v : PyVal) :
    (isVSpecInst v = false → specEqObj s v = .error "AttributeError") ∧
    (nodeWF s = true → specEqObj s (.vSpecInst s) = .ok true) ∧
    (∀ t₁ t₂ : PyCls, specEqObj (.atom t₁) (.vSpecInst (.atom t₂))
        = .ok (t₁ == t₂)) := by
  refine ⟨?_, ?_, ?_⟩
  · intro hv
    cases v <;> simp [specEqObj, isVSpecInst] at hv ⊢
  · intro hw
    show entityEq (inner s) (inner s) = .ok true
    exact entityEq_inner_refl s hw
  · intro t₁ t₂
    show entityEq (inner (.atom t₁)) (inner (.atom t₂)) = .ok (t₁ == t₂)
    simp [inner, entityEq]

/-- Witness for C10 at concrete nodes and values. -/
theorem spec_eq_amended_witness :
    isVSpecInst (PyVal.vInt 7) = false ∧
    specEqObj (.atom .intC) (.vInt 7) = .error "AttributeError" ∧
    nodeWF (SpecNode.model [("a", .atom .intC)]) = true ∧
    specEqObj (.model [("a", .atom .intC)])
      (.vSpecInst (.model [("a", .atom .intC)])) = .ok true :=
  ⟨rfl, (spec_eq_amended (.atom .intC) (.vInt 7)).1 rfl, rfl,
    (spec_eq_amended (.model [("a", .atom .intC)])
      (.vSpecInst (.model [("a", .atom .intC)]))).2.1 rfl⟩

end Datalayer
